import Mathlib

/-!
# Verification of the code-review extension's analysis pipeline

A shallow embedding of the repository's core logic:

* `src/gitAnalyzer.ts` — turning the Git index's staged entries into
  `CodeChange` values (`GitAnalyzer.getStagedChanges`, `getChangeType`);
* `src/codeAnalyzer.ts` — the analysis pipeline (`CodeAnalyzer.analyzeChanges`,
  `parseLLMResponse`, `performRuleBasedAnalysis`, `analyzeFileContent`,
  `createFallbackReport`);
* `src/codeReviewPanel.ts` / `src/extension.ts` / the webview script — message
  routing from the webview to editor commands;
* `src/webview-components.js` — `HtmlUtils.escape`.

JavaScript strings are modelled as `List Char` for content processing and as
Lean `String` for stored fields.  Host-provided effects (the VS Code Language
Model API, the Git extension's diff computation, `Date.toISOString`, the save
dialog) are modelled as explicit oracle inputs.  A thrown JavaScript exception
is modelled as `Except.error` carrying a `JsError`.
-/

/-! ## JavaScript string primitives -/

/-- The needle list occurs as a contiguous sublist of the second argument.
Models JavaScript `String.prototype.includes`. -/
def containsSub (needle : List Char) : List Char → Bool
  | [] => needle.isEmpty
  | c :: rest => needle.isPrefixOf (c :: rest) || containsSub needle rest

/-- JavaScript `hay.includes(needle)` on the character list of `hay`. -/
def jsIncludes (hay : List Char) (needle : String) : Bool :=
  containsSub needle.data hay

/-- Split a character list at every separator character (the separator is
dropped).  Models JavaScript `String.prototype.split` with a single-character
(or single-character-class) separator: the result is always non-empty and keeps
empty segments, e.g. splitting `""` yields `[""]`. -/
def splitOnPred (p : Char → Bool) : List Char → List (List Char)
  | [] => [[]]
  | c :: rest =>
    if p c then [] :: splitOnPred p rest
    else
      match splitOnPred p rest with
      | [] => [[c]]
      | l :: ls => (c :: l) :: ls

/-- The whitespace characters relevant to the strings this code processes;
models JavaScript `String.prototype.trim`. -/
def isJsSpace (c : Char) : Bool :=
  c = ' ' || c = '\t' || c = '\n' || c = '\r'

/-- JavaScript `line.trim()`. -/
def jsTrim (l : List Char) : List Char :=
  ((l.dropWhile isJsSpace).reverse.dropWhile isJsSpace).reverse

/-- JavaScript `s.endsWith(suffix)`. -/
def jsEndsWith (s : String) (suf : String) : Bool :=
  suf.data.isSuffixOf s.data

/-- A JavaScript runtime error (a thrown exception value). -/
inductive JsError where
  | typeError (msg : String)
  | jsError (msg : String)
deriving DecidableEq, Repr

deriving instance DecidableEq for Except

/-! ## Data model (`src/gitAnalyzer.ts`, `src/codeAnalyzer.ts`)

The `CodeChange` interface in `gitAnalyzer.ts` declares the fields `filePath`,
`fileName`, `diff`, `changeType` and optional `lineNumber`.  `codeAnalyzer.ts`
additionally reads `change.oldContent` and `change.newContent`, which the
interface does not declare and `getStagedChanges` never sets; reading an absent
property yields `undefined` in JavaScript, so the embedding carries these two
fields as `Option String` with `none` for the absent (undefined) case. -/

inductive ChangeType where
  | added
  | modified
  | deleted
deriving DecidableEq, Repr

structure CodeChange where
  filePath : String
  fileName : String
  diff : String
  changeType : ChangeType
  lineNumber : Option Int := none
  oldContent : Option String := none
  newContent : Option String := none
deriving DecidableEq, Repr

/-- The `CodeIssue` interface declares `title` and `description` as required
strings, but on the language-model path the values come from parsed JSON that
is never validated, so at runtime they may be absent (`undefined`); the
embedding therefore carries them as `Option String`.  Likewise `type` is the
string actually present at runtime, not the four-constant union type. -/
structure CodeIssue where
  type : String
  title : Option String := none
  description : Option String := none
  lineNumber : Option Int := none
  codeSnippet : Option String := none
  suggestion : Option String := none
deriving DecidableEq, Repr

structure FileAnalysis where
  fileName : String
  filePath : String
  issues : List CodeIssue
deriving DecidableEq, Repr

/-- The `AnalysisReport.summary` object.  `filesAnalyzed` is always set from
`changes.length`; the other counters may be copied from the model's JSON
response, which can hold arbitrary integers, hence `Int`. -/
structure ReportSummary where
  filesAnalyzed : Nat
  totalIssues : Int
  errors : Int
  warnings : Int
  suggestions : Int
  overallScore : Int
deriving DecidableEq, Repr

structure AnalysisReport where
  summary : ReportSummary
  files : List FileAnalysis
  timestamp : String
deriving DecidableEq, Repr

/-! ## GitAnalyzer (`src/gitAnalyzer.ts`) -/

namespace GitAnalyzer

/-- One entry of `repository.state.indexChanges`, together with the outcomes
of the two diff calls the Git extension can be asked for on that entry
(`repository.diffWith("HEAD", path)` and
`repository.diffIndexWithHEAD(path)`).  The diff computations are
host-provided effects, so they enter the model as oracles: `.error` models a
rejected promise (a thrown exception at the `await`). -/
structure IndexEntry where
  fsPath : String
  status : Nat
  diffWithHead : Except JsError String
  diffIndexWithHead : Except JsError String
deriving DecidableEq, Repr

/-- The part of `git.repositories[i].state` that `getStagedChanges` reads. -/
structure Repository where
  indexChanges : List IndexEntry
deriving DecidableEq, Repr

/-- Models `GitAnalyzer.getChangeType`: bit tests against the VS Code Git API status
constants `INDEX_DELETED = 4` and `INDEX_ADDED = 2`. -/
def getChangeType (status : Nat) : ChangeType :=
  if status &&& 4 ≠ 0 then .deleted
  else if status &&& 2 ≠ 0 then .added
  else .modified

/-- Models `change.uri.fsPath.split(/[\\/]/).pop() || ""`. -/
def baseName (p : String) : String :=
  ⟨(splitOnPred (fun c => c = '/' || c = '\\') p.data).getLastD []⟩

/-- The `for (const change of stagedChanges)` loop body of
`getStagedChanges`: compute the change type, pick the diff source (`diffWith`
against HEAD for deleted files, `diffIndexWithHEAD` otherwise), skip the entry
when the diff call throws (the per-entry `try/catch` with `continue`), and
push a `CodeChange` only when the diff string is truthy (non-empty).  The
constructed object literal has no `oldContent`/`newContent`/`lineNumber`
properties. -/
def getStagedChangesLoop : List IndexEntry → List CodeChange
  | [] => []
  | e :: rest =>
    match (if getChangeType e.status = ChangeType.deleted
           then e.diffWithHead else e.diffIndexWithHead) with
    | .error _ => getStagedChangesLoop rest
    | .ok diff =>
      if diff = "" then getStagedChangesLoop rest
      else
        { filePath := e.fsPath
          fileName := baseName e.fsPath
          diff := diff
          changeType := getChangeType e.status } :: getStagedChangesLoop rest

/-- Models `GitAnalyzer.getStagedChanges`, given the repository the surrounding code
resolved (workspace lookup, Git extension lookup and repository matching are
host-API preconditions; if any fails the method throws before reaching the
loop). -/
def getStagedChanges (repo : Repository) : List CodeChange :=
  getStagedChangesLoop repo.indexChanges

end GitAnalyzer

/-! ## CodeAnalyzer (`src/codeAnalyzer.ts`) -/

namespace CodeAnalyzer

/-- The issue pushed for a line containing `console.log`. -/
def consoleLogIssue (line : List Char) (ln : Nat) : CodeIssue :=
  { type := "warning"
    title := some "Console.log Statement"
    description := some "Console.log statement found in production code"
    lineNumber := some (ln : Int)
    codeSnippet := some ⟨jsTrim line⟩
    suggestion := some "Consider removing or replacing with proper logging" }

/-- The issue pushed for a line containing `TODO` or `FIXME`. -/
def todoIssue (line : List Char) (ln : Nat) : CodeIssue :=
  { type := "info"
    title := some "TODO/FIXME Comment"
    description := some "Code contains TODO or FIXME comment"
    lineNumber := some (ln : Int)
    codeSnippet := some ⟨jsTrim line⟩
    suggestion := some "Address the TODO/FIXME item before finalizing" }

/-- The issue pushed for a line containing `eval(` or `innerHTML =`. -/
def securityIssue (line : List Char) (ln : Nat) : CodeIssue :=
  { type := "error"
    title := some "Potential Security Risk"
    description := some "Code contains potentially unsafe operations"
    lineNumber := some (ln : Int)
    codeSnippet := some ⟨jsTrim line⟩
    suggestion := some "Review for security implications" }

/-- The issue pushed for a line longer than 120 characters. -/
def longLineIssue (line : List Char) (ln : Nat) : CodeIssue :=
  { type := "info"
    title := some "Long Line"
    description := some "Line exceeds 120 characters"
    lineNumber := some (ln : Int)
    codeSnippet := some ⟨jsTrim line⟩
    suggestion := some "Consider breaking into multiple lines for readability" }

/-- The issue pushed when an async function has no error handling. -/
def asyncIssue : CodeIssue :=
  { type := "warning"
    title := some "Missing Error Handling"
    description := some "Async function without explicit error handling"
    suggestion := some "Consider adding try-catch blocks or .catch() handlers" }

/-- The issue pushed when a TypeScript file uses the `any` type. -/
def anyTypeIssue : CodeIssue :=
  { type := "warning"
    title := some "TypeScript 'any' Type"
    description := some "Code uses 'any' type which reduces type safety"
    suggestion := some "Consider using more specific types" }

/-- The positive note pushed when no other issue was found in a file. -/
def positiveIssue : CodeIssue :=
  { type := "positive"
    title := some "Code Quality"
    description := some "No obvious issues detected in this file"
    suggestion := some "Good work! Continue following best practices" }

/-- The issue used by `createFallbackReport` for every file. -/
def fallbackIssue : CodeIssue :=
  { type := "info"
    title := some "LLM Analysis Unavailable"
    description := some "Unable to perform AI-powered analysis. Please check your language model configuration."
    suggestion := some "Ensure you have a language model configured in VSCode settings." }

/-- Per-line check: `line.includes("console.log") && !line.includes("// TODO: Remove")`. -/
def consoleLogCheck (line : List Char) (ln : Nat) : List CodeIssue :=
  if jsIncludes line "console.log" && !jsIncludes line "// TODO: Remove" then
    [consoleLogIssue line ln]
  else []

/-- Per-line check: `line.includes("TODO") || line.includes("FIXME")`. -/
def todoCheck (line : List Char) (ln : Nat) : List CodeIssue :=
  if jsIncludes line "TODO" || jsIncludes line "FIXME" then [todoIssue line ln] else []

/-- Per-line check: `line.includes("eval(") || line.includes("innerHTML =")`. -/
def securityCheck (line : List Char) (ln : Nat) : List CodeIssue :=
  if jsIncludes line "eval(" || jsIncludes line "innerHTML =" then
    [securityIssue line ln]
  else []

/-- Per-line check: `line.length > 120`. -/
def longLineCheck (line : List Char) (ln : Nat) : List CodeIssue :=
  if 120 < line.length then [longLineIssue line ln] else []

/-- All issues pushed while visiting one line (in source push order);
`ln` is the 1-based line number `index + 1`. -/
def lineIssues (line : List Char) (ln : Nat) : List CodeIssue :=
  consoleLogCheck line ln ++ todoCheck line ln ++ securityCheck line ln ++
    longLineCheck line ln

/-- The `lines.forEach((line, index) => ...)` pass of `analyzeFileContent`
over `content.split("\n")`. -/
def contentLineIssues (content : String) : List CodeIssue :=
  ((splitOnPred (fun c => c = '\n') content.data).enum).flatMap
    (fun p => lineIssues p.2 (p.1 + 1))

/-- Whole-content check: `content.includes("async ") && !content.includes("try \x7b")
&& !content.includes(".catch(")`. -/
def asyncCheck (content : String) : List CodeIssue :=
  if jsIncludes content.data "async " && !jsIncludes content.data "try \x7b" &&
      !jsIncludes content.data ".catch(" then
    [asyncIssue]
  else []

/-- TypeScript-specific check: the file name ends in `.ts`/`.tsx`, the content
contains `any` and no `// eslint-disable`. -/
def anyCheck (fileName : String) (content : String) : List CodeIssue :=
  if (jsEndsWith fileName ".ts" || jsEndsWith fileName ".tsx") &&
      jsIncludes content.data "any" && !jsIncludes content.data "// eslint-disable" then
    [anyTypeIssue]
  else []

/-- All fixed-pattern rule issues of one file, in source push order. -/
def ruleIssuesOf (fileName : String) (content : String) : List CodeIssue :=
  contentLineIssues content ++ asyncCheck content ++ anyCheck fileName content

/-- The final issue list of `analyzeFileContent` for one file once the content
string is in hand: the rule issues, or the single positive note when none
matched. -/
def fileIssuesOf (fileName : String) (content : String) : List CodeIssue :=
  if (ruleIssuesOf fileName content).isEmpty then [positiveIssue]
  else ruleIssuesOf fileName content

/-- Models `CodeAnalyzer.analyzeFileContent`.  The method starts with
`const content = change.newContent; const lines = content.split("\n")`; when
`newContent` is absent (as on every object `getStagedChanges` builds), the
`split` call on `undefined` throws a `TypeError`. -/
def analyzeFileContent (c : CodeChange) : Except JsError (List CodeIssue) :=
  match c.newContent with
  | none =>
    .error (.typeError "Cannot read properties of undefined (reading 'split')")
  | some content => .ok (fileIssuesOf c.fileName content)

/-- The `changes.map((change) => ...)` of `performRuleBasedAnalysis`:
JavaScript's `map` runs the callback sequentially and the first thrown
exception propagates. -/
def analyzeFilesLoop : List CodeChange → Except JsError (List FileAnalysis)
  | [] => .ok []
  | c :: rest =>
    match analyzeFileContent c with
    | .error e => .error e
    | .ok issues =>
      match analyzeFilesLoop rest with
      | .error e => .error e
      | .ok files =>
        .ok ({ fileName := c.fileName, filePath := c.filePath, issues := issues } :: files)

/-- Models `issue.type === "error"`. -/
def isErrIssue (i : CodeIssue) : Bool := i.type == "error"

/-- Models `issue.type === "warning"`. -/
def isWarnIssue (i : CodeIssue) : Bool := i.type == "warning"

/-- Models `issue.type === "info" || issue.type === "positive"`. -/
def isSuggIssue (i : CodeIssue) : Bool := i.type == "info" || i.type == "positive"

/-- Models `files.reduce((sum, file) => sum + file.issues.filter(p).length, 0)`. -/
def countOver (p : CodeIssue → Bool) (files : List FileAnalysis) : Nat :=
  (files.map (fun f => (f.issues.filter p).length)).sum

/-- Models `files.reduce((sum, file) => sum + file.issues.length, 0)`. -/
def totalIssuesOf (files : List FileAnalysis) : Nat :=
  (files.map (fun f => f.issues.length)).sum

/-- Models `CodeAnalyzer.performRuleBasedAnalysis`.  Here `now` stands for
`new Date().toISOString()` (a host effect). -/
def performRuleBasedAnalysis (changes : List CodeChange) (now : String) :
    Except JsError AnalysisReport :=
  match analyzeFilesLoop changes with
  | .error e => .error e
  | .ok files =>
    let totalIssues : Nat := totalIssuesOf files
    let errors : Nat := countOver isErrIssue files
    let warnings : Nat := countOver isWarnIssue files
    let suggestions : Nat := countOver isSuggIssue files
    .ok
      { summary :=
          { filesAnalyzed := changes.length
            totalIssues := (totalIssues : Int)
            errors := (errors : Int)
            warnings := (warnings : Int)
            suggestions := (suggestions : Int)
            overallScore :=
              if totalIssues = 0 then 9
              else max 1 (9 - (errors : Int) * 2 - (warnings : Int)) }
        files := files
        timestamp := now }

/-- Models `CodeAnalyzer.createFallbackReport`. -/
def createFallbackReport (changes : List CodeChange) (now : String) : AnalysisReport :=
  let files : List FileAnalysis :=
    changes.map fun c =>
      { fileName := c.fileName, filePath := c.filePath, issues := [fallbackIssue] }
  { summary :=
      { filesAnalyzed := changes.length
        totalIssues := (files.length : Int)
        errors := 0
        warnings := 0
        suggestions := (files.length : Int)
        overallScore := 5 }
    files := files
    timestamp := now }

/-- The `parsed.summary` object of the model's JSON response, as
`JSON.parse` would deliver it: every numeric field may be absent. -/
structure ParsedSummary where
  overallScore : Option Int := none
  criticalIssues : Option Int := none
  warnings : Option Int := none
  suggestions : Option Int := none
deriving DecidableEq, Repr

/-- The parsed model response: `summary` and `files` may each be absent, and
the `files` value is used without validation. -/
structure ParsedLLM where
  summary : Option ParsedSummary := none
  files : Option (List FileAnalysis) := none
deriving DecidableEq, Repr

/-- JavaScript `v || d` for an optionally-absent number: `undefined` and `0`
are falsy, every other integer is truthy. -/
def jsOrInt (v : Option Int) (d : Int) : Int :=
  match v with
  | none => d
  | some n => if n = 0 then d else n

/-- Models `CodeAnalyzer.parseLLMResponse`.  The streaming collection of fragments,
the markdown cleanup and `JSON.parse` are summarised by the oracle `parsed`:
`.ok` is a successfully parsed response, `.error` any exception on the way
(the method's own `try/catch` turns it into `createFallbackReport`).  On
success the summary counters are taken from the parsed summary with `|| 0`
(`|| 5` for the score) and `files` is `parsed.files || []`, unvalidated. -/
def parseLLMResponse (parsed : Except JsError ParsedLLM)
    (changes : List CodeChange) (now : String) : AnalysisReport :=
  match parsed with
  | .error _ => createFallbackReport changes now
  | .ok p =>
    let criticalIssues := jsOrInt (p.summary.bind (fun s => s.criticalIssues)) 0
    let warnings := jsOrInt (p.summary.bind (fun s => s.warnings)) 0
    let suggestions := jsOrInt (p.summary.bind (fun s => s.suggestions)) 0
    { summary :=
        { filesAnalyzed := changes.length
          totalIssues := criticalIssues + warnings + suggestions
          errors := criticalIssues
          warnings := warnings
          suggestions := suggestions
          overallScore := jsOrInt (p.summary.bind (fun s => s.overallScore)) 5 }
      files := p.files.getD []
      timestamp := now }

/-- The host-side outcomes `analyzeChanges` can observe on the language-model
path: whether `vscode.lm && vscode.lm.selectChatModels` is truthy, and the
results of the three awaited/parsed steps.  `selectModel` covers
`selectChatModels` rejecting; `sendRequest` covers both `model` being
`undefined` (empty model list) and `model.sendRequest` rejecting; `parsed` is
the oracle consumed by `parseLLMResponse`. -/
structure LMEnv where
  lmAvailable : Bool
  selectModel : Except JsError Unit
  sendRequest : Except JsError Unit
  parsed : Except JsError ParsedLLM

/-- Models `CodeAnalyzer.analyzeChanges`: the single `try/catch`.  The `try` block
either runs the language-model path (when the API is available) or returns the
rule-based analysis; any exception from the `try` block lands in the `catch`,
which runs `performRuleBasedAnalysis` again — this second call is outside any
`try`, so an exception it throws propagates to the caller. -/
def analyzeChanges (env : LMEnv) (changes : List CodeChange) (now : String) :
    Except JsError AnalysisReport :=
  let attempt : Except JsError AnalysisReport :=
    if env.lmAvailable then
      match env.selectModel with
      | .error e => .error e
      | .ok _ =>
        match env.sendRequest with
        | .error e => .error e
        | .ok _ => .ok (parseLLMResponse env.parsed changes now)
    else
      performRuleBasedAnalysis changes now
  match attempt with
  | .ok r => .ok r
  | .error _ => performRuleBasedAnalysis changes now

end CodeAnalyzer

/-! ## Webview panel and command routing
(`src/codeReviewPanel.ts`, `src/extension.ts`, the webview script) -/

namespace CodeReviewPanel

/-- The fields of a webview message that the extension-side handler reads.
The webview script posts plain objects; absent string fields read as the
falsy `undefined`, modelled here as `""` (only its falsiness is used, in
`message.command || message.type`). -/
structure WebviewMessage where
  command : String := ""
  type : String := ""
  report : Option AnalysisReport := none
  fileName : String := ""
  lineNumber : Int := 0
deriving DecidableEq, Repr

/-- The immediate effect the `onDidReceiveMessage` handler performs for one
message: which editor command it executes with which arguments, or which
private handler it invokes. -/
inductive PanelAction where
  | exportHandler (report : Option AnalysisReport)
  | goToLineCommand (filePath : String) (lineNumber : Int)
  | startReviewCommand
  | openSettingsCommand (settingsQuery : String)
  | noAction
deriving DecidableEq, Repr

/-- JavaScript `a || b` on strings: `""` is falsy. -/
def jsOrStr (a b : String) : String := if a = "" then b else a

/-- The `switch (message.command || message.type)` handler installed by the
`CodeReviewPanel` constructor.  `exportReport` calls `_exportReport`,
`goToCode` executes `codeReview.goToLine` with `message.fileName` and
`message.lineNumber`, `refreshAnalysis` executes `codeReview.startReview`,
`openSettings` opens the `languageModel` settings.  (The source lists a second
`case "goToCode"` arm calling `_goToCode`; a duplicate `case` label is
unreachable in JavaScript, the first arm wins.) -/
def onDidReceiveMessage (m : WebviewMessage) : PanelAction :=
  let sel := jsOrStr m.command m.type
  if sel = "exportReport" then .exportHandler m.report
  else if sel = "goToCode" then .goToLineCommand m.fileName m.lineNumber
  else if sel = "refreshAnalysis" then .startReviewCommand
  else if sel = "openSettings" then .openSettingsCommand "languageModel"
  else .noAction

/-- The message the webview script's `goToCode(fileName, lineNumber)` posts;
the generated buttons call it with the issue's `filePath` and `lineNumber`. -/
def webviewGoToCodeMessage (filePath : String) (lineNumber : Int) : WebviewMessage :=
  { command := "goToCode", fileName := filePath, lineNumber := lineNumber }

/-- The message the webview script's `exportReport()` posts
(`report` is the analysis data the template stored). -/
def webviewExportMessage (report : Option AnalysisReport) : WebviewMessage :=
  { command := "exportReport", report := report }

/-- The message the webview script's `refreshAnalysis()`/`retryAnalysis()`
post. -/
def webviewRefreshMessage : WebviewMessage :=
  { command := "refreshAnalysis" }

/-- Models `vscode.Uri.joinPath(workspaceFolder.uri, filePath)` (host API), kept
abstract as path concatenation. -/
def joinPath (ws p : String) : String := ws ++ "/" ++ p

/-- The observable outcome of the `codeReview.goToLine` command
(`src/extension.ts`): which document it opens and where it places the
cursor. -/
structure EditorNav where
  openedPath : String
  cursorLine : Int
  cursorChar : Int
deriving DecidableEq, Repr

/-- The `codeReview.goToLine` command handler: resolves the file path against
the first workspace folder, opens the document, and sets the selection to
`new Position(Math.max(0, lineNumber - 1), 0)`. -/
def goToLineRun (ws : String) (filePath : String) (lineNumber : Int) : EditorNav :=
  { openedPath := joinPath ws filePath
    cursorLine := max 0 (lineNumber - 1)
    cursorChar := 0 }

/-- Models `CodeReviewPanel._exportReport`, as a function of the save-dialog outcome
(`showSaveDialog` is a host effect): when the user picks a location, the
JSON serialization (`JSON.stringify(report, null, 2)`, host-provided) of the
report is written there; when the dialog is cancelled nothing is written.
The result records the write target and the report written, or `none`. -/
def exportReportRun (report : Option AnalysisReport) (chosen : Option String) :
    Option (String × Option AnalysisReport) :=
  chosen.map fun uri => (uri, report)

end CodeReviewPanel

/-! ## HtmlUtils (`src/webview-components.js`) -/

namespace HtmlUtils

/-- The JavaScript values relevant to `HtmlUtils.escape`'s dynamic input
(`typeof text !== 'string'` guard). -/
inductive JsVal where
  | str (s : String)
  | num (n : Int)
  | boolean (b : Bool)
  | null
  | undef
deriving DecidableEq, Repr

/-- JavaScript truthiness for the modelled values. -/
def jsTruthy : JsVal → Bool
  | .str s => s ≠ ""
  | .num n => n ≠ 0
  | .boolean b => b
  | .null => false
  | .undef => false

/-- JavaScript `String(v)` for the modelled values. -/
def jsToString : JsVal → String
  | .str s => s
  | .num n => toString n
  | .boolean b => if b then "true" else "false"
  | .null => "null"
  | .undef => "undefined"

/-- JavaScript `s.replace(/c/g, rep)` for a single-character pattern. -/
def replaceChar (c : Char) (rep : List Char) : List Char → List Char
  | [] => []
  | x :: xs => if x = c then rep ++ replaceChar c rep xs else x :: replaceChar c rep xs

/-- The five chained `.replace` calls of `HtmlUtils.escape`, in source
order: `&`, `<`, `>`, `"`, `'`. -/
def escapeChars (l : List Char) : List Char :=
  replaceChar '\'' "&#39;".data
    (replaceChar '"' "&quot;".data
      (replaceChar '>' "&gt;".data
        (replaceChar '<' "&lt;".data
          (replaceChar '&' "&amp;".data l))))

/-- Models `HtmlUtils.escape`: non-strings are converted with `String(text || '')`;
strings go through the five `.replace` calls. -/
def escape (v : JsVal) : String :=
  match v with
  | .str s => ⟨escapeChars s.data⟩
  | _ => jsToString (if jsTruthy v then v else .str "")

end HtmlUtils

/-! ## Spec-side definitions

These definitions follow the wording of the specification/claims (not the
source); the theorems compare them with the source-derived definitions
above. -/

/-- Per-character HTML escaping as the claim describes it: each of the five
special characters is replaced by its HTML entity, every other character is
kept. -/
def escapeCharSpec (c : Char) : List Char :=
  if c = '&' then "&amp;".data
  else if c = '<' then "&lt;".data
  else if c = '>' then "&gt;".data
  else if c = '"' then "&quot;".data
  else if c = '\'' then "&#39;".data
  else [c]

/-- The staged-entry processing as the claim describes it: one `CodeChange`
per staged entry whose computed diff is non-empty, diffed against HEAD via
`diffWith` for deleted files and via `diffIndexWithHEAD` otherwise, and
`none` (skip) when the diff computation throws. -/
def stagedChangeSpec (e : GitAnalyzer.IndexEntry) : Option CodeChange :=
  match (if GitAnalyzer.getChangeType e.status = ChangeType.deleted
         then e.diffWithHead else e.diffIndexWithHead) with
  | .error _ => none
  | .ok d =>
    if d = "" then none
    else
      some
        { filePath := e.fsPath
          fileName := GitAnalyzer.baseName e.fsPath
          diff := d
          changeType := GitAnalyzer.getChangeType e.status }

/-- The aggregate counts of a report agree with its per-file issue lists:
`errors` counts the issues of type `error`, `warnings` those of type
`warning`, `suggestions` those of type `info` or `positive`, and
`totalIssues` is their sum. -/
def IssueConsistent (r : AnalysisReport) : Prop :=
  r.summary.errors = (CodeAnalyzer.countOver CodeAnalyzer.isErrIssue r.files : Int) ∧
  r.summary.warnings = (CodeAnalyzer.countOver CodeAnalyzer.isWarnIssue r.files : Int) ∧
  r.summary.suggestions = (CodeAnalyzer.countOver CodeAnalyzer.isSuggIssue r.files : Int) ∧
  r.summary.totalIssues = r.summary.errors + r.summary.warnings + r.summary.suggestions

instance (r : AnalysisReport) : Decidable (IssueConsistent r) := by
  unfold IssueConsistent; infer_instance

/-- A validated finding in the sense of the claim: its type is one of the
four issue kinds and it has a title and a description. -/
def ValidIssue (i : CodeIssue) : Prop :=
  i.type ∈ (["error", "warning", "info", "positive"] : List String) ∧
  i.title.isSome = true ∧ i.description.isSome = true

instance (i : CodeIssue) : Decidable (ValidIssue i) := by
  unfold ValidIssue; infer_instance

/-! ## Helper lemmas -/

theorem mem_ite_single {α : Type} {b : Prop} [Decidable b] {i x : α}
    (h : i ∈ (if b then [x] else [])) : i = x := by
  split at h
  · simpa using h
  · simp at h

theorem lineIssues_mem {line : List Char} {ln : Nat} {i : CodeIssue}
    (h : i ∈ CodeAnalyzer.lineIssues line ln) :
    i = CodeAnalyzer.consoleLogIssue line ln ∨ i = CodeAnalyzer.todoIssue line ln ∨
      i = CodeAnalyzer.securityIssue line ln ∨ i = CodeAnalyzer.longLineIssue line ln := by
  unfold CodeAnalyzer.lineIssues CodeAnalyzer.consoleLogCheck CodeAnalyzer.todoCheck
    CodeAnalyzer.securityCheck CodeAnalyzer.longLineCheck at h
  simp only [List.mem_append] at h
  rcases h with ((h | h) | h) | h
  · exact Or.inl (mem_ite_single h)
  · exact Or.inr (Or.inl (mem_ite_single h))
  · exact Or.inr (Or.inr (Or.inl (mem_ite_single h)))
  · exact Or.inr (Or.inr (Or.inr (mem_ite_single h)))

theorem ruleIssuesOf_valid {fn content : String} {i : CodeIssue}
    (h : i ∈ CodeAnalyzer.ruleIssuesOf fn content) : ValidIssue i := by
  unfold CodeAnalyzer.ruleIssuesOf at h
  simp only [List.mem_append] at h
  rcases h with (h | h) | h
  · unfold CodeAnalyzer.contentLineIssues at h
    rcases List.mem_flatMap.1 h with ⟨p, _, hp⟩
    rcases lineIssues_mem hp with h | h | h | h <;> subst h <;>
      refine ⟨?_, rfl, rfl⟩ <;>
      simp [CodeAnalyzer.consoleLogIssue, CodeAnalyzer.todoIssue,
        CodeAnalyzer.securityIssue, CodeAnalyzer.longLineIssue]
  · unfold CodeAnalyzer.asyncCheck at h
    have := mem_ite_single h
    subst this
    exact ⟨by decide, rfl, rfl⟩
  · unfold CodeAnalyzer.anyCheck at h
    have := mem_ite_single h
    subst this
    exact ⟨by decide, rfl, rfl⟩

theorem fileIssuesOf_valid {fn content : String} {i : CodeIssue}
    (h : i ∈ CodeAnalyzer.fileIssuesOf fn content) : ValidIssue i := by
  unfold CodeAnalyzer.fileIssuesOf at h
  split at h
  · have := mem_ite_single (b := True) (x := CodeAnalyzer.positiveIssue)
      (by simpa using h)
    subst this
    exact ⟨by decide, rfl, rfl⟩
  · exact ruleIssuesOf_valid h

theorem fileIssuesOf_ne_nil (fn content : String) :
    CodeAnalyzer.fileIssuesOf fn content ≠ [] := by
  unfold CodeAnalyzer.fileIssuesOf
  split
  · simp
  · next hne =>
    intro hc
    rw [hc] at hne
    simp at hne

theorem validIssue_class {i : CodeIssue} (h : ValidIssue i) :
    (CodeAnalyzer.isErrIssue i || CodeAnalyzer.isWarnIssue i ||
      CodeAnalyzer.isSuggIssue i) = true := by
  rcases h with ⟨ht, -, -⟩
  simp only [List.mem_cons, List.not_mem_nil, or_false] at ht
  rcases ht with h | h | h | h <;>
    simp [CodeAnalyzer.isErrIssue, CodeAnalyzer.isWarnIssue,
      CodeAnalyzer.isSuggIssue, h]

theorem isErrIssue_excl {i : CodeIssue} (h : CodeAnalyzer.isErrIssue i = true) :
    CodeAnalyzer.isWarnIssue i = false ∧ CodeAnalyzer.isSuggIssue i = false := by
  simp only [CodeAnalyzer.isErrIssue, beq_iff_eq] at h
  constructor <;>
    simp [CodeAnalyzer.isWarnIssue, CodeAnalyzer.isSuggIssue, h]

theorem isWarnIssue_excl {i : CodeIssue} (h : CodeAnalyzer.isWarnIssue i = true) :
    CodeAnalyzer.isSuggIssue i = false := by
  simp only [CodeAnalyzer.isWarnIssue, beq_iff_eq] at h
  simp [CodeAnalyzer.isSuggIssue, h]

theorem length_filter_classes {l : List CodeIssue}
    (h : ∀ i ∈ l, (CodeAnalyzer.isErrIssue i || CodeAnalyzer.isWarnIssue i ||
      CodeAnalyzer.isSuggIssue i) = true) :
    l.length = (l.filter CodeAnalyzer.isErrIssue).length +
      (l.filter CodeAnalyzer.isWarnIssue).length +
      (l.filter CodeAnalyzer.isSuggIssue).length := by
  induction l with
  | nil => simp
  | cons a l ih =>
    have ha := h a (by simp)
    have hrest := ih fun i hi => h i (by simp [hi])
    by_cases h1 : CodeAnalyzer.isErrIssue a = true
    · rcases isErrIssue_excl h1 with ⟨h2, h3⟩
      simp only [List.filter_cons, h1, h2, h3, List.length_cons, ite_true,
        Bool.false_eq_true, ite_false]
      omega
    · by_cases h2 : CodeAnalyzer.isWarnIssue a = true
      · have h3 := isWarnIssue_excl h2
        simp only [List.filter_cons, h1, h2, h3, List.length_cons,
          Bool.false_eq_true, ite_false, ite_true]
        omega
      · have h3 : CodeAnalyzer.isSuggIssue a = true := by
          rcases Bool.or_eq_true_iff.1 ha with h | h
          · rcases Bool.or_eq_true_iff.1 h with h | h
            · exact absurd h h1
            · exact absurd h h2
          · exact h
        simp only [List.filter_cons, h1, h2, h3, List.length_cons,
          Bool.false_eq_true, ite_false, ite_true]
        omega

theorem countOver_cons (p : CodeIssue → Bool) (f : FileAnalysis)
    (fs : List FileAnalysis) :
    CodeAnalyzer.countOver p (f :: fs) =
      (f.issues.filter p).length + CodeAnalyzer.countOver p fs := by
  simp [CodeAnalyzer.countOver]

theorem countOver_classes {files : List FileAnalysis}
    (h : ∀ f ∈ files, ∀ i ∈ f.issues, (CodeAnalyzer.isErrIssue i ||
      CodeAnalyzer.isWarnIssue i || CodeAnalyzer.isSuggIssue i) = true) :
    CodeAnalyzer.totalIssuesOf files =
      CodeAnalyzer.countOver CodeAnalyzer.isErrIssue files +
      CodeAnalyzer.countOver CodeAnalyzer.isWarnIssue files +
      CodeAnalyzer.countOver CodeAnalyzer.isSuggIssue files := by
  induction files with
  | nil => simp [CodeAnalyzer.countOver, CodeAnalyzer.totalIssuesOf]
  | cons f fs ih =>
    have hf := length_filter_classes (h f (by simp))
    have hrest := ih fun g hg => h g (by simp [hg])
    simp only [CodeAnalyzer.totalIssuesOf, List.map_cons, List.sum_cons,
      countOver_cons] at *
    omega

theorem analyzeFilesLoop_ok {changes : List CodeChange} {files : List FileAnalysis}
    (h : CodeAnalyzer.analyzeFilesLoop changes = .ok files) :
    files.map (fun f => (f.fileName, f.filePath)) =
      changes.map (fun c => (c.fileName, c.filePath)) ∧
    ∀ f ∈ files, ∃ content : String,
      f.issues = CodeAnalyzer.fileIssuesOf f.fileName content := by
  induction changes generalizing files with
  | nil =>
    simp only [CodeAnalyzer.analyzeFilesLoop, Except.ok.injEq] at h
    subst h
    simp
  | cons c rest ih =>
    rw [CodeAnalyzer.analyzeFilesLoop] at h
    cases hc : c.newContent with
    | none => simp [CodeAnalyzer.analyzeFileContent, hc] at h
    | some content =>
      simp only [CodeAnalyzer.analyzeFileContent, hc] at h
      cases hrest : CodeAnalyzer.analyzeFilesLoop rest with
      | error e => rw [hrest] at h; simp at h
      | ok fs =>
        rw [hrest] at h
        simp only [Except.ok.injEq] at h
        subst h
        rcases ih hrest with ⟨hmap, hissues⟩
        refine ⟨by simp [hmap], ?_⟩
        intro f hf
        rcases List.mem_cons.1 hf with hf | hf
        · subst hf
          exact ⟨content, rfl⟩
        · exact hissues f hf

theorem performRuleBased_ok {changes : List CodeChange} {now : String}
    {r : AnalysisReport} (h : CodeAnalyzer.performRuleBasedAnalysis changes now = .ok r) :
    CodeAnalyzer.analyzeFilesLoop changes = .ok r.files ∧
    r.summary.filesAnalyzed = changes.length ∧
    r.summary.totalIssues = (CodeAnalyzer.totalIssuesOf r.files : Int) ∧
    r.summary.errors = (CodeAnalyzer.countOver CodeAnalyzer.isErrIssue r.files : Int) ∧
    r.summary.warnings = (CodeAnalyzer.countOver CodeAnalyzer.isWarnIssue r.files : Int) ∧
    r.summary.suggestions = (CodeAnalyzer.countOver CodeAnalyzer.isSuggIssue r.files : Int) ∧
    r.summary.overallScore =
      (if CodeAnalyzer.totalIssuesOf r.files = 0 then (9 : Int)
       else max 1 (9 - (CodeAnalyzer.countOver CodeAnalyzer.isErrIssue r.files : Int) * 2 -
         (CodeAnalyzer.countOver CodeAnalyzer.isWarnIssue r.files : Int))) := by
  unfold CodeAnalyzer.performRuleBasedAnalysis at h
  cases hl : CodeAnalyzer.analyzeFilesLoop changes with
  | error e => rw [hl] at h; simp at h
  | ok files =>
    rw [hl] at h
    simp only [Except.ok.injEq] at h
    subst h
    exact ⟨rfl, rfl, rfl, rfl, rfl, rfl, rfl⟩

theorem performRuleBased_files_valid {changes : List CodeChange} {now : String}
    {r : AnalysisReport} (h : CodeAnalyzer.performRuleBasedAnalysis changes now = .ok r) :
    ∀ f ∈ r.files, ∀ i ∈ f.issues, ValidIssue i := by
  rcases analyzeFilesLoop_ok (performRuleBased_ok h).1 with ⟨-, hissues⟩
  intro f hf i hi
  rcases hissues f hf with ⟨content, hc⟩
  rw [hc] at hi
  exact fileIssuesOf_valid hi

theorem fallback_files {changes : List CodeChange} {now : String} :
    (CodeAnalyzer.createFallbackReport changes now).files =
      changes.map (fun c =>
        { fileName := c.fileName, filePath := c.filePath,
          issues := [CodeAnalyzer.fallbackIssue] }) := rfl

theorem fallback_counts (changes : List CodeChange) (now : String) :
    CodeAnalyzer.countOver CodeAnalyzer.isErrIssue
      (CodeAnalyzer.createFallbackReport changes now).files = 0 ∧
    CodeAnalyzer.countOver CodeAnalyzer.isWarnIssue
      (CodeAnalyzer.createFallbackReport changes now).files = 0 ∧
    CodeAnalyzer.countOver CodeAnalyzer.isSuggIssue
      (CodeAnalyzer.createFallbackReport changes now).files =
      (CodeAnalyzer.createFallbackReport changes now).files.length := by
  rw [fallback_files]
  induction changes with
  | nil => simp [CodeAnalyzer.countOver]
  | cons c rest ih =>
    have he : CodeAnalyzer.isErrIssue CodeAnalyzer.fallbackIssue = false := by decide
    have hw : CodeAnalyzer.isWarnIssue CodeAnalyzer.fallbackIssue = false := by decide
    have hs : CodeAnalyzer.isSuggIssue CodeAnalyzer.fallbackIssue = true := by decide
    rcases ih with ⟨ih1, ih2, ih3⟩
    refine ⟨?_, ?_, ?_⟩ <;>
      · simp only [List.map_cons, countOver_cons, List.filter_cons, he, hw, hs,
          Bool.false_eq_true, ite_false, ite_true, List.filter_nil,
          List.length_nil, List.length_cons, ih1, ih2, ih3]
        try omega

theorem getStagedChangesLoop_eq_filterMap (entries : List GitAnalyzer.IndexEntry) :
    GitAnalyzer.getStagedChangesLoop entries = entries.filterMap stagedChangeSpec := by
  induction entries with
  | nil => rfl
  | cons e rest ih =>
    rw [GitAnalyzer.getStagedChangesLoop, List.filterMap_cons]
    cases hd : (if GitAnalyzer.getChangeType e.status = ChangeType.deleted
                then e.diffWithHead else e.diffIndexWithHead) with
    | error err => simp [stagedChangeSpec, hd, ih]
    | ok d =>
      by_cases hempty : d = "" <;> simp [stagedChangeSpec, hd, hempty, ih]

theorem replaceChar_append (c : Char) (rep : List Char) (a b : List Char) :
    HtmlUtils.replaceChar c rep (a ++ b) =
      HtmlUtils.replaceChar c rep a ++ HtmlUtils.replaceChar c rep b := by
  induction a with
  | nil => rfl
  | cons x xs ih =>
    by_cases h : x = c <;> simp [HtmlUtils.replaceChar, h, ih]

theorem replaceChar_other {c : Char} (rep : List Char) {x : Char} (h : x ≠ c)
    (l : List Char) :
    HtmlUtils.replaceChar c rep (x :: l) = x :: HtmlUtils.replaceChar c rep l := by
  simp [HtmlUtils.replaceChar, h]

theorem escapeChars_cons (c : Char) (l : List Char) :
    HtmlUtils.escapeChars (c :: l) = escapeCharSpec c ++ HtmlUtils.escapeChars l := by
  by_cases h1 : c = '&'
  · subst h1
    unfold HtmlUtils.escapeChars
    rw [show HtmlUtils.replaceChar '&' "&amp;".data ('&' :: l) =
        "&amp;".data ++ HtmlUtils.replaceChar '&' "&amp;".data l from by
      simp [HtmlUtils.replaceChar]]
    rw [replaceChar_append, replaceChar_append, replaceChar_append, replaceChar_append]
    rw [show HtmlUtils.replaceChar '\'' "&#39;".data
        (HtmlUtils.replaceChar '"' "&quot;".data
          (HtmlUtils.replaceChar '>' "&gt;".data
            (HtmlUtils.replaceChar '<' "&lt;".data "&amp;".data))) =
        "&amp;".data from by decide]
    rfl
  by_cases h2 : c = '<'
  · subst h2
    unfold HtmlUtils.escapeChars
    rw [replaceChar_other _ h1]
    rw [show HtmlUtils.replaceChar '<' "&lt;".data
        ('<' :: HtmlUtils.replaceChar '&' "&amp;".data l) =
        "&lt;".data ++ HtmlUtils.replaceChar '<' "&lt;".data
          (HtmlUtils.replaceChar '&' "&amp;".data l) from by
      simp [HtmlUtils.replaceChar]]
    rw [replaceChar_append, replaceChar_append, replaceChar_append]
    rw [show HtmlUtils.replaceChar '\'' "&#39;".data
        (HtmlUtils.replaceChar '"' "&quot;".data
          (HtmlUtils.replaceChar '>' "&gt;".data "&lt;".data)) =
        "&lt;".data from by decide]
    rfl
  by_cases h3 : c = '>'
  · subst h3
    unfold HtmlUtils.escapeChars
    rw [replaceChar_other _ h1, replaceChar_other _ h2]
    rw [show HtmlUtils.replaceChar '>' "&gt;".data
        ('>' :: HtmlUtils.replaceChar '<' "&lt;".data
          (HtmlUtils.replaceChar '&' "&amp;".data l)) =
        "&gt;".data ++ HtmlUtils.replaceChar '>' "&gt;".data
          (HtmlUtils.replaceChar '<' "&lt;".data
            (HtmlUtils.replaceChar '&' "&amp;".data l)) from by
      simp [HtmlUtils.replaceChar]]
    rw [replaceChar_append, replaceChar_append]
    rw [show HtmlUtils.replaceChar '\'' "&#39;".data
        (HtmlUtils.replaceChar '"' "&quot;".data "&gt;".data) =
        "&gt;".data from by decide]
    rfl
  by_cases h4 : c = '"'
  · subst h4
    unfold HtmlUtils.escapeChars
    rw [replaceChar_other _ h1, replaceChar_other _ h2, replaceChar_other _ h3]
    rw [show HtmlUtils.replaceChar '"' "&quot;".data
        ('"' :: HtmlUtils.replaceChar '>' "&gt;".data
          (HtmlUtils.replaceChar '<' "&lt;".data
            (HtmlUtils.replaceChar '&' "&amp;".data l))) =
        "&quot;".data ++ HtmlUtils.replaceChar '"' "&quot;".data
          (HtmlUtils.replaceChar '>' "&gt;".data
            (HtmlUtils.replaceChar '<' "&lt;".data
              (HtmlUtils.replaceChar '&' "&amp;".data l))) from by
      simp [HtmlUtils.replaceChar]]
    rw [replaceChar_append]
    rw [show HtmlUtils.replaceChar '\'' "&#39;".data "&quot;".data =
        "&quot;".data from by decide]
    rfl
  by_cases h5 : c = '\''
  · subst h5
    unfold HtmlUtils.escapeChars
    rw [replaceChar_other _ h1, replaceChar_other _ h2, replaceChar_other _ h3,
      replaceChar_other _ h4]
    rw [show HtmlUtils.replaceChar '\'' "&#39;".data
        ('\'' :: HtmlUtils.replaceChar '"' "&quot;".data
          (HtmlUtils.replaceChar '>' "&gt;".data
            (HtmlUtils.replaceChar '<' "&lt;".data
              (HtmlUtils.replaceChar '&' "&amp;".data l)))) =
        "&#39;".data ++ HtmlUtils.replaceChar '\'' "&#39;".data
          (HtmlUtils.replaceChar '"' "&quot;".data
            (HtmlUtils.replaceChar '>' "&gt;".data
              (HtmlUtils.replaceChar '<' "&lt;".data
                (HtmlUtils.replaceChar '&' "&amp;".data l)))) from by
      simp [HtmlUtils.replaceChar]]
    rfl
  · unfold HtmlUtils.escapeChars
    rw [replaceChar_other _ h1, replaceChar_other _ h2, replaceChar_other _ h3,
      replaceChar_other _ h4, replaceChar_other _ h5]
    rw [show escapeCharSpec c = [c] from by
      simp [escapeCharSpec, h1, h2, h3, h4, h5]]
    rfl

theorem escapeChars_eq_flatMap (l : List Char) :
    HtmlUtils.escapeChars l = l.flatMap escapeCharSpec := by
  induction l with
  | nil => rfl
  | cons c l ih => rw [List.flatMap_cons, escapeChars_cons, ih]

theorem escapeCharSpec_no_forbidden (c : Char) :
    ∀ x ∈ escapeCharSpec c, x ≠ '<' ∧ x ≠ '>' ∧ x ≠ '"' ∧ x ≠ '\'' := by
  by_cases h1 : c = '&'
  · subst h1; decide
  by_cases h2 : c = '<'
  · subst h2; decide
  by_cases h3 : c = '>'
  · subst h3; decide
  by_cases h4 : c = '"'
  · subst h4; decide
  by_cases h5 : c = '\''
  · subst h5; decide
  · intro x hx
    rw [show escapeCharSpec c = [c] from by
      simp [escapeCharSpec, h1, h2, h3, h4, h5]] at hx
    simp only [List.mem_singleton] at hx
    subst hx
    exact ⟨h2, h3, h4, h5⟩

/-! ## Claim theorems -/

/-- Claim C6: `GitAnalyzer.getStagedChanges` inspects only the staged set
tracked by the Git index (`repository.state.indexChanges`): it returns one
`CodeChange` per staged entry whose computed diff is non-empty (diffed against
HEAD via `diffWith` for deleted files, via `diffIndexWithHEAD` otherwise),
skips any entry whose diff computation throws without failing the whole
operation, and never includes a file that is not staged — every returned
change comes from some entry of `indexChanges`. -/
theorem claim_C6_staged_changes (repo : GitAnalyzer.Repository) :
    GitAnalyzer.getStagedChanges repo = repo.indexChanges.filterMap stagedChangeSpec ∧
    ∀ c ∈ GitAnalyzer.getStagedChanges repo,
      ∃ e ∈ repo.indexChanges, stagedChangeSpec e = some c ∧ c.filePath = e.fsPath := by
  have heq := getStagedChangesLoop_eq_filterMap repo.indexChanges
  refine ⟨heq, ?_⟩
  intro c hc
  rw [GitAnalyzer.getStagedChanges, heq] at hc
  rcases List.mem_filterMap.1 hc with ⟨e, he, hspec⟩
  refine ⟨e, he, hspec, ?_⟩
  unfold stagedChangeSpec at hspec
  cases hd : (if GitAnalyzer.getChangeType e.status = ChangeType.deleted
              then e.diffWithHead else e.diffIndexWithHead) with
  | error err => rw [hd] at hspec; simp at hspec
  | ok d =>
    rw [hd] at hspec
    by_cases hde : d = ""
    · simp [hde] at hspec
    · simp only [hde, ite_false, Option.some.injEq] at hspec
      rw [← hspec]

def entryC6 : GitAnalyzer.IndexEntry :=
  { fsPath := "proj/src/main.ts", status := 2,
    diffWithHead := .ok "", diffIndexWithHead := .ok "+added line" }

def repoC6 : GitAnalyzer.Repository := { indexChanges := [entryC6] }

def changeC6 : CodeChange :=
  { filePath := "proj/src/main.ts", fileName := "main.ts", diff := "+added line",
    changeType := ChangeType.added }

/-- Claim C6, witness: the theorem applied to a concrete one-entry staged set
(an `INDEX_ADDED` entry with a non-empty index diff). -/
theorem claim_C6_witness :
    ∃ e ∈ repoC6.indexChanges,
      stagedChangeSpec e = some changeC6 ∧ changeC6.filePath = e.fsPath :=
  (claim_C6_staged_changes repoC6).2 changeC6 (by
    rw [show GitAnalyzer.getStagedChanges repoC6 = [changeC6] from by decide]
    exact List.mem_singleton_self _)

/-- Claim C10: `HtmlUtils.escape` on a string replaces every occurrence of
`&`, `<`, `>`, `"` and `'` by its HTML entity (and keeps every other
character), so its output contains none of the characters `<`, `>`, `"`, `'`;
on non-string inputs it still returns a string (it is total: the
`typeof text !== 'string'` guard converts them with `String(text || '')`). -/
theorem claim_C10_escape (s : String) :
    (HtmlUtils.escape (HtmlUtils.JsVal.str s)).data = s.data.flatMap escapeCharSpec ∧
    (∀ x ∈ (HtmlUtils.escape (HtmlUtils.JsVal.str s)).data,
      x ≠ '<' ∧ x ≠ '>' ∧ x ≠ '"' ∧ x ≠ '\'') ∧
    (∀ v : HtmlUtils.JsVal, ∃ out : String, HtmlUtils.escape v = out) := by
  have h1 : (HtmlUtils.escape (HtmlUtils.JsVal.str s)).data =
      HtmlUtils.escapeChars s.data := rfl
  refine ⟨by rw [h1, escapeChars_eq_flatMap], ?_, fun v => ⟨_, rfl⟩⟩
  intro x hx
  rw [h1, escapeChars_eq_flatMap] at hx
  rcases List.mem_flatMap.1 hx with ⟨c, -, hc⟩
  exact escapeCharSpec_no_forbidden c x hc

/-- Claim C10, witness: the theorem applied to the concrete input `"a<b"`,
whose escape `"a&lt;b"` contains `'&'`, discharging the membership
hypothesis there. -/
theorem claim_C10_witness :
    (HtmlUtils.escape (HtmlUtils.JsVal.str "a<b")).data =
      "a<b".data.flatMap escapeCharSpec ∧
    ('&' ≠ '<' ∧ '&' ≠ '>' ∧ '&' ≠ '"' ∧ '&' ≠ '\'') :=
  ⟨(claim_C10_escape "a<b").1, (claim_C10_escape "a<b").2.1 '&' (by decide)⟩

/-- Claim C1 (amended): when the Language Model API is unavailable, or when
model selection or the chat request fails, `analyzeChanges` returns exactly
the result of `performRuleBasedAnalysis` over the same changes; but when only
the parsing of the model's response fails, it returns the fixed
`createFallbackReport` instead (the rule-based report of the original claim
is not produced on that path). -/
theorem claim_C1_fallback (env : CodeAnalyzer.LMEnv) (changes : List CodeChange)
    (now : String) :
    (env.lmAvailable = false →
      CodeAnalyzer.analyzeChanges env changes now =
        CodeAnalyzer.performRuleBasedAnalysis changes now) ∧
    (∀ e : JsError, env.lmAvailable = true →
      (env.selectModel = .error e ∨ env.sendRequest = .error e) →
      CodeAnalyzer.analyzeChanges env changes now =
        CodeAnalyzer.performRuleBasedAnalysis changes now) ∧
    (∀ e : JsError, env.lmAvailable = true → env.selectModel = .ok () →
      env.sendRequest = .ok () → env.parsed = .error e →
      CodeAnalyzer.analyzeChanges env changes now =
        .ok (CodeAnalyzer.createFallbackReport changes now)) := by
  refine ⟨?_, ?_, ?_⟩
  · intro h
    cases hr : CodeAnalyzer.performRuleBasedAnalysis changes now <;>
      simp [CodeAnalyzer.analyzeChanges, h, hr]
  · intro e hav hfail
    rcases hfail with hf | hf
    · simp [CodeAnalyzer.analyzeChanges, hav, hf]
    · cases hs : env.selectModel with
      | error e2 => simp [CodeAnalyzer.analyzeChanges, hav, hs]
      | ok u => cases u; simp [CodeAnalyzer.analyzeChanges, hav, hs, hf]
  · intro e hav h1 h2 h3
    simp [CodeAnalyzer.analyzeChanges, hav, h1, h2, h3,
      CodeAnalyzer.parseLLMResponse]

def changeC1 : CodeChange :=
  { filePath := "src/a.ts", fileName := "a.ts", diff := "+x",
    changeType := ChangeType.modified, newContent := some "let x = 1" }

def envC1 : CodeAnalyzer.LMEnv :=
  { lmAvailable := true, selectModel := .ok (), sendRequest := .ok (),
    parsed := .error (.jsError "SyntaxError: Unexpected token") }

/-- Claim C1, counterexample: with the Language Model API available, model
selection and the chat request succeeding, but the response failing to parse,
`analyzeChanges` does not return the rule-based report over the same changes
(it returns the fixed fallback report, which differs). -/
theorem claim_C1_cex :
    CodeAnalyzer.analyzeChanges envC1 [changeC1] "t" ≠
      CodeAnalyzer.performRuleBasedAnalysis [changeC1] "t" := by decide

def envC1w : CodeAnalyzer.LMEnv :=
  { lmAvailable := false, selectModel := .ok (), sendRequest := .ok (),
    parsed := .error (.jsError "unused") }

/-- Claim C1, witness: the amended theorem applied with the Language Model
API unavailable. -/
theorem claim_C1_witness :
    CodeAnalyzer.analyzeChanges envC1w [changeC1] "t" =
      CodeAnalyzer.performRuleBasedAnalysis [changeC1] "t" :=
  (claim_C1_fallback envC1w [changeC1] "t").1 rfl

def entryC2 : GitAnalyzer.IndexEntry :=
  { fsPath := "proj/src/app.ts", status := 1,
    diffWithHead := .ok "", diffIndexWithHead := .ok "+line" }

def repoC2 : GitAnalyzer.Repository := { indexChanges := [entryC2] }

def envC2 : CodeAnalyzer.LMEnv :=
  { lmAvailable := false, selectModel := .ok (), sendRequest := .ok (),
    parsed := .error (.jsError "unused") }

/-- Claim C2, evaluation at the failing input: a single staged
`INDEX_MODIFIED` entry with a non-empty index diff yields one `CodeChange`
(without a `newContent` property), and running `analyzeChanges` on exactly
that list with the Language Model API unavailable rejects with a `TypeError`
instead of resolving with a report: `analyzeFileContent` reads
`change.newContent`, which `getStagedChanges` never sets, and calls `.split`
on `undefined`; the resulting exception is thrown again by the
`performRuleBasedAnalysis` call in the `catch` block, outside any `try`. -/
theorem claim_C2_failing_eval :
    GitAnalyzer.getStagedChanges repoC2 =
      [{ filePath := "proj/src/app.ts", fileName := "app.ts", diff := "+line",
         changeType := ChangeType.modified }] ∧
    CodeAnalyzer.analyzeChanges envC2 (GitAnalyzer.getStagedChanges repoC2) "t" =
      .error (.typeError "Cannot read properties of undefined (reading 'split')") := by
  decide

theorem analyzeChanges_filesAnalyzed {env : CodeAnalyzer.LMEnv}
    {changes : List CodeChange} {now : String} {r : AnalysisReport}
    (h : CodeAnalyzer.analyzeChanges env changes now = .ok r) :
    r.summary.filesAnalyzed = changes.length := by
  have hp : ∀ p, (CodeAnalyzer.parseLLMResponse p changes now).summary.filesAnalyzed =
      changes.length := by
    intro p
    cases p <;> rfl
  unfold CodeAnalyzer.analyzeChanges at h
  cases hav : env.lmAvailable with
  | false =>
    rw [hav] at h
    simp only [Bool.false_eq_true, if_false] at h
    cases hpr : CodeAnalyzer.performRuleBasedAnalysis changes now with
    | error e =>
      rw [hpr] at h
      simp only [hpr] at h
      exact absurd h (by simp)
    | ok r2 =>
      rw [hpr] at h
      simp only [Except.ok.injEq] at h
      subst h
      exact (performRuleBased_ok hpr).2.1
  | true =>
    rw [hav] at h
    simp only [if_true] at h
    cases hs : env.selectModel with
    | error e =>
      rw [hs] at h
      cases hpr : CodeAnalyzer.performRuleBasedAnalysis changes now with
      | error e2 => rw [hpr] at h; exact absurd h (by simp)
      | ok r2 =>
        rw [hpr] at h
        simp only [Except.ok.injEq] at h
        subst h
        exact (performRuleBased_ok hpr).2.1
    | ok u =>
      cases u
      rw [hs] at h
      cases hq : env.sendRequest with
      | error e =>
        rw [hq] at h
        cases hpr : CodeAnalyzer.performRuleBasedAnalysis changes now with
        | error e2 => rw [hpr] at h; exact absurd h (by simp)
        | ok r2 =>
          rw [hpr] at h
          simp only [Except.ok.injEq] at h
          subst h
          exact (performRuleBased_ok hpr).2.1
      | ok u2 =>
        cases u2
        rw [hq] at h
        simp only [Except.ok.injEq] at h
        subst h
        exact hp env.parsed

/-- Claim C5 (amended): `filesAnalyzed` equals the number of input changes on
every path of `analyzeChanges`; on the rule-based path and the fixed-fallback
path the report's files list additionally contains exactly one `FileAnalysis`
per input change, in input order, preserving that change's `fileName` and
`filePath`.  On the language-model success path, however, the files list is
taken verbatim from the model's response (`parsed.files || []`) and need not
correspond to the input changes. -/
theorem claim_C5_pipeline (env : CodeAnalyzer.LMEnv) (changes : List CodeChange)
    (now : String) (r r' : AnalysisReport) :
    (CodeAnalyzer.analyzeChanges env changes now = .ok r →
      r.summary.filesAnalyzed = changes.length) ∧
    (CodeAnalyzer.performRuleBasedAnalysis changes now = .ok r' →
      r'.files.map (fun f => (f.fileName, f.filePath)) =
        changes.map (fun c => (c.fileName, c.filePath)) ∧
      r'.summary.filesAnalyzed = changes.length) ∧
    ((CodeAnalyzer.createFallbackReport changes now).files.map
        (fun f => (f.fileName, f.filePath)) =
      changes.map (fun c => (c.fileName, c.filePath)) ∧
      (CodeAnalyzer.createFallbackReport changes now).summary.filesAnalyzed =
        changes.length) := by
  refine ⟨fun h => analyzeChanges_filesAnalyzed h,
    fun h => ⟨(analyzeFilesLoop_ok (performRuleBased_ok h).1).1,
      (performRuleBased_ok h).2.1⟩, ?_, rfl⟩
  rw [fallback_files, List.map_map]
  rfl

def parsedC5 : CodeAnalyzer.ParsedLLM := { files := some [] }

def envC5 : CodeAnalyzer.LMEnv :=
  { lmAvailable := true, selectModel := .ok (), sendRequest := .ok (),
    parsed := .ok parsedC5 }

def changeC5 : CodeChange :=
  { filePath := "d.ts", fileName := "d.ts", diff := "+d",
    changeType := ChangeType.modified }

def summaryC5 : ReportSummary :=
  { filesAnalyzed := 1
    totalIssues := 0
    errors := 0
    warnings := 0
    suggestions := 0
    overallScore := 5 }

def reportC5 : AnalysisReport :=
  { summary := summaryC5
    files := []
    timestamp := "t" }

/-- Claim C5, counterexample: on the language-model path, a successfully
parsed response whose `files` array is empty yields a report with no
`FileAnalysis` at all for the one input change, so the files list does not
contain one entry per input change. -/
theorem claim_C5_cex :
    CodeAnalyzer.analyzeChanges envC5 [changeC5] "t" = .ok reportC5 ∧
    reportC5.files.map (fun f => (f.fileName, f.filePath)) ≠
      [changeC5].map (fun c => (c.fileName, c.filePath)) := by decide

def changeC5w : CodeChange :=
  { filePath := "src/e.js", fileName := "e.js", diff := "+e",
    changeType := ChangeType.added, newContent := some "" }

def summaryC5w : ReportSummary :=
  { filesAnalyzed := 1
    totalIssues := 1
    errors := 0
    warnings := 0
    suggestions := 1
    overallScore := 9 }

def fileC5w : FileAnalysis :=
  { fileName := "e.js"
    filePath := "src/e.js"
    issues := [CodeAnalyzer.positiveIssue] }

def reportC5w : AnalysisReport :=
  { summary := summaryC5w
    files := [fileC5w]
    timestamp := "t" }

/-- Claim C5, witness: the amended theorem applied to a concrete one-change
input on the rule-based path. -/
theorem claim_C5_witness :
    reportC5w.files.map (fun f => (f.fileName, f.filePath)) =
      [changeC5w].map (fun c => (c.fileName, c.filePath)) ∧
    reportC5w.summary.filesAnalyzed = 1 :=
  (claim_C5_pipeline envC5 [changeC5w] "t" reportC5w reportC5w).2.1 (by decide)

/-- Claim C3 (amended): the aggregate counts agree with the per-file issue
lists for every report produced by `performRuleBasedAnalysis` and for every
report produced by `createFallbackReport`; on the language-model success
path, however, the summary counts are copied from the model's own summary
object and need not agree with the files list. -/
theorem claim_C3_counts (changes : List CodeChange) (now : String)
    (r : AnalysisReport) :
    (CodeAnalyzer.performRuleBasedAnalysis changes now = .ok r →
      IssueConsistent r) ∧
    IssueConsistent (CodeAnalyzer.createFallbackReport changes now) := by
  constructor
  · intro h
    rcases performRuleBased_ok h with ⟨-, -, htot, herr, hwarn, hsugg, -⟩
    have hvalid := performRuleBased_files_valid h
    have hsum := countOver_classes
      (fun f hf i hi => validIssue_class (hvalid f hf i hi))
    refine ⟨herr, hwarn, hsugg, ?_⟩
    rw [htot, herr, hwarn, hsugg, hsum]
    push_cast
    ring
  · rcases fallback_counts changes now with ⟨h1, h2, h3⟩
    refine ⟨?_, ?_, ?_, ?_⟩
    · show (0 : Int) = _
      rw [h1]
      rfl
    · show (0 : Int) = _
      rw [h2]
      rfl
    · show (((CodeAnalyzer.createFallbackReport changes now).files.length : Nat) : Int) = _
      rw [h3]
    · show (((CodeAnalyzer.createFallbackReport changes now).files.length : Nat) : Int) =
        0 + 0 + ((CodeAnalyzer.createFallbackReport changes now).files.length : Nat)
      omega

def parsedSummaryC3 : CodeAnalyzer.ParsedSummary := { criticalIssues := some 5 }

def parsedC3 : CodeAnalyzer.ParsedLLM :=
  { summary := some parsedSummaryC3
    files := some [] }

def envC3 : CodeAnalyzer.LMEnv :=
  { lmAvailable := true, selectModel := .ok (), sendRequest := .ok (),
    parsed := .ok parsedC3 }

def summaryC3 : ReportSummary :=
  { filesAnalyzed := 0
    totalIssues := 5
    errors := 5
    warnings := 0
    suggestions := 0
    overallScore := 5 }

def reportC3 : AnalysisReport :=
  { summary := summaryC3
    files := []
    timestamp := "t" }

/-- Claim C3, counterexample: on the language-model success path the summary
counts are copied from the model's summary object without validation; a
parsed response claiming 5 critical issues with an empty files list yields a
report whose `summary.errors` is 5 while no file carries any issue of type
`"error"`. -/
theorem claim_C3_cex :
    CodeAnalyzer.analyzeChanges envC3 [] "t" = .ok reportC3 ∧
    ¬ IssueConsistent reportC3 := by decide

def changeC3w : CodeChange :=
  { filePath := "b.js", fileName := "b.js", diff := "+y",
    changeType := ChangeType.added, newContent := some "console.log(1)" }

def summaryC3w : ReportSummary :=
  { filesAnalyzed := 1
    totalIssues := 1
    errors := 0
    warnings := 1
    suggestions := 0
    overallScore := 8 }

def fileC3w : FileAnalysis :=
  { fileName := "b.js"
    filePath := "b.js"
    issues := [CodeAnalyzer.consoleLogIssue "console.log(1)".data 1] }

def reportC3w : AnalysisReport :=
  { summary := summaryC3w
    files := [fileC3w]
    timestamp := "t" }

/-- Claim C3, witness: the amended theorem applied to a concrete one-change
input whose rule-based report carries one `console.log` warning. -/
theorem claim_C3_witness :
    IssueConsistent reportC3w ∧
    IssueConsistent (CodeAnalyzer.createFallbackReport [changeC3w] "t") :=
  ⟨(claim_C3_counts [changeC3w] "t" reportC3w).1 (by decide),
    (claim_C3_counts [changeC3w] "t" reportC3w).2⟩

/-- Claim C4 (amended): every issue in a report produced by
`performRuleBasedAnalysis` or `createFallbackReport` is a validated finding
(type among `error`/`warning`/`info`/`positive`, with a title and a
description present); but a report built from a successfully parsed model
response carries the response's issues verbatim, with no validation at all,
so its issues need not be validated findings. -/
theorem claim_C4_validated (changes : List CodeChange) (now : String)
    (r : AnalysisReport) :
    (CodeAnalyzer.performRuleBasedAnalysis changes now = .ok r →
      ∀ f ∈ r.files, ∀ i ∈ f.issues, ValidIssue i) ∧
    (∀ f ∈ (CodeAnalyzer.createFallbackReport changes now).files,
      ∀ i ∈ f.issues, ValidIssue i) := by
  constructor
  · intro h
    exact performRuleBased_files_valid h
  · intro f hf i hi
    rw [fallback_files] at hf
    rcases List.mem_map.1 hf with ⟨c, -, hc⟩
    subst hc
    simp only [List.mem_singleton] at hi
    subst hi
    exact ⟨by decide, rfl, rfl⟩

def issueC4 : CodeIssue := { type := "banana" }

def fileC4 : FileAnalysis :=
  { fileName := "x.ts"
    filePath := "x.ts"
    issues := [issueC4] }

def parsedC4 : CodeAnalyzer.ParsedLLM := { files := some [fileC4] }

def envC4 : CodeAnalyzer.LMEnv :=
  { lmAvailable := true, selectModel := .ok (), sendRequest := .ok (),
    parsed := .ok parsedC4 }

def summaryC4 : ReportSummary :=
  { filesAnalyzed := 0
    totalIssues := 0
    errors := 0
    warnings := 0
    suggestions := 0
    overallScore := 5 }

def reportC4 : AnalysisReport :=
  { summary := summaryC4
    files := [fileC4]
    timestamp := "t" }

/-- Claim C4, counterexample: a successfully parsed model response whose
files carry an issue with type `"banana"` and no title or description flows
into the report returned by `analyzeChanges` unchanged, so not every issue in
every returned report is a validated finding. -/
theorem claim_C4_cex :
    CodeAnalyzer.analyzeChanges envC4 [] "t" = .ok reportC4 ∧
    ¬ (∀ f ∈ reportC4.files, ∀ i ∈ f.issues, ValidIssue i) := by decide

def changeC4w : CodeChange :=
  { filePath := "c.md", fileName := "c.md", diff := "+z",
    changeType := ChangeType.modified, newContent := some "" }

def summaryC4w : ReportSummary :=
  { filesAnalyzed := 1
    totalIssues := 1
    errors := 0
    warnings := 0
    suggestions := 1
    overallScore := 9 }

def fileC4w : FileAnalysis :=
  { fileName := "c.md"
    filePath := "c.md"
    issues := [CodeAnalyzer.positiveIssue] }

def reportC4w : AnalysisReport :=
  { summary := summaryC4w
    files := [fileC4w]
    timestamp := "t" }

/-- Claim C4, witness: the amended theorem applied to a concrete one-change
input whose rule-based report carries the single positive note. -/
theorem claim_C4_witness :
    ∀ f ∈ reportC4w.files, ∀ i ∈ f.issues, ValidIssue i :=
  (claim_C4_validated [changeC4w] "t" reportC4w).1 (by decide)

/-- Claim C8: for every (non-empty) list of changes, each `FileAnalysis` the
rule-based analysis produces has a non-empty issues list, because whenever no
fixed-pattern rule matches a file, exactly one issue of type `"positive"` is
added for that file. -/
theorem claim_C8_nonempty (changes : List CodeChange) (now : String)
    (r : AnalysisReport) (_hne : changes ≠ [])
    (h : CodeAnalyzer.performRuleBasedAnalysis changes now = .ok r) :
    (∀ f ∈ r.files, f.issues ≠ []) ∧
    (∀ fn content : String, CodeAnalyzer.ruleIssuesOf fn content = [] →
      CodeAnalyzer.fileIssuesOf fn content = [CodeAnalyzer.positiveIssue]) := by
  refine ⟨?_, ?_⟩
  · intro f hf
    rcases (analyzeFilesLoop_ok (performRuleBased_ok h).1).2 f hf with ⟨content, hc⟩
    rw [hc]
    exact fileIssuesOf_ne_nil _ _
  · intro fn content hr
    unfold CodeAnalyzer.fileIssuesOf
    rw [hr]
    rfl

def changeC8w : CodeChange :=
  { filePath := "src/f.py", fileName := "f.py", diff := "+f",
    changeType := ChangeType.modified, newContent := some "x = 1" }

def summaryC8w : ReportSummary :=
  { filesAnalyzed := 1
    totalIssues := 1
    errors := 0
    warnings := 0
    suggestions := 1
    overallScore := 9 }

def fileC8w : FileAnalysis :=
  { fileName := "f.py"
    filePath := "src/f.py"
    issues := [CodeAnalyzer.positiveIssue] }

def reportC8w : AnalysisReport :=
  { summary := summaryC8w
    files := [fileC8w]
    timestamp := "t" }

/-- Claim C8, witness: the theorem applied to a concrete non-empty input
where no rule matches, discharging both hypotheses. -/
theorem claim_C8_witness :
    (∀ f ∈ reportC8w.files, f.issues ≠ []) ∧
    (∀ fn content : String, CodeAnalyzer.ruleIssuesOf fn content = [] →
      CodeAnalyzer.fileIssuesOf fn content = [CodeAnalyzer.positiveIssue]) :=
  claim_C8_nonempty [changeC8w] "t" reportC8w (by decide) (by decide)

/-- Claim C9: in every report the rule-based analysis produces, the overall
score is an integer between 1 and 9 inclusive; it is 9 when the total number
of issues is zero, and otherwise equals `max 1 (9 - errors * 2 - warnings)`. -/
theorem claim_C9_score (changes : List CodeChange) (now : String)
    (r : AnalysisReport)
    (h : CodeAnalyzer.performRuleBasedAnalysis changes now = .ok r) :
    1 ≤ r.summary.overallScore ∧ r.summary.overallScore ≤ 9 ∧
    (r.summary.totalIssues = 0 → r.summary.overallScore = 9) ∧
    (r.summary.totalIssues ≠ 0 →
      r.summary.overallScore =
        max 1 (9 - r.summary.errors * 2 - r.summary.warnings)) := by
  rcases performRuleBased_ok h with ⟨-, -, htot, herr, hwarn, -, hscore⟩
  by_cases h0 : CodeAnalyzer.totalIssuesOf r.files = 0
  · rw [hscore, if_pos h0]
    refine ⟨by norm_num, by norm_num, fun _ => rfl, fun hc => absurd ?_ hc⟩
    rw [htot, h0]
    rfl
  · rw [hscore, if_neg h0]
    refine ⟨le_max_left _ _, ?_, ?_, ?_⟩
    · apply max_le (by norm_num)
      omega
    · intro hzero
      rw [htot] at hzero
      omega
    · intro _
      rw [herr, hwarn]

def changeC9w : CodeChange :=
  { filePath := "g.js", fileName := "g.js", diff := "+g",
    changeType := ChangeType.added, newContent := some "console.log(2)" }

def summaryC9w : ReportSummary :=
  { filesAnalyzed := 1
    totalIssues := 1
    errors := 0
    warnings := 1
    suggestions := 0
    overallScore := 8 }

def fileC9w : FileAnalysis :=
  { fileName := "g.js"
    filePath := "g.js"
    issues := [CodeAnalyzer.consoleLogIssue "console.log(2)".data 1] }

def reportC9w : AnalysisReport :=
  { summary := summaryC9w
    files := [fileC9w]
    timestamp := "t" }

/-- Claim C9, witness: the theorem applied to a concrete one-change input
whose rule-based report has one warning (score `max 1 (9 - 0*2 - 1) = 8`). -/
theorem claim_C9_witness :
    1 ≤ reportC9w.summary.overallScore ∧ reportC9w.summary.overallScore ≤ 9 ∧
    (reportC9w.summary.totalIssues = 0 → reportC9w.summary.overallScore = 9) ∧
    (reportC9w.summary.totalIssues ≠ 0 →
      reportC9w.summary.overallScore =
        max 1 (9 - reportC9w.summary.errors * 2 - reportC9w.summary.warnings)) :=
  claim_C9_score [changeC9w] "t" reportC9w (by decide)

/-- Claim C7: every user action relayed from the webview is routed to an
editor command: a `refreshAnalysis` message executes `codeReview.startReview`;
a `goToCode` message executes `codeReview.goToLine` with the file path and
line number carried by the message, and that command opens the document
resolved against the workspace folder and places the cursor at the 0-based
line `lineNumber - 1` (for the line numbers the webview sends, which are at
least 1); an `exportReport` message invokes the export handler, which writes
the report as JSON to the location chosen in the save dialog (and writes
nothing when the dialog is cancelled). -/
theorem claim_C7_routing (p : String) (n : Int) (r : Option AnalysisReport)
    (ws uri : String) :
    CodeReviewPanel.onDidReceiveMessage CodeReviewPanel.webviewRefreshMessage =
      CodeReviewPanel.PanelAction.startReviewCommand ∧
    CodeReviewPanel.onDidReceiveMessage (CodeReviewPanel.webviewGoToCodeMessage p n) =
      CodeReviewPanel.PanelAction.goToLineCommand p n ∧
    (1 ≤ n →
      (CodeReviewPanel.goToLineRun ws p n).openedPath =
        CodeReviewPanel.joinPath ws p ∧
      (CodeReviewPanel.goToLineRun ws p n).cursorLine = n - 1) ∧
    CodeReviewPanel.onDidReceiveMessage (CodeReviewPanel.webviewExportMessage r) =
      CodeReviewPanel.PanelAction.exportHandler r ∧
    CodeReviewPanel.exportReportRun r (some uri) = some (uri, r) ∧
    CodeReviewPanel.exportReportRun r none = none := by
  refine ⟨rfl, rfl, ?_, rfl, rfl, rfl⟩
  intro hn
  refine ⟨rfl, ?_⟩
  show max 0 (n - 1) = n - 1
  exact max_eq_right (by omega)

/-- Claim C7, witness: the theorem applied to the concrete message carrying
file path `"src/x.ts"` and line number 5. -/
theorem claim_C7_witness :
    CodeReviewPanel.onDidReceiveMessage
        (CodeReviewPanel.webviewGoToCodeMessage "src/x.ts" 5) =
      CodeReviewPanel.PanelAction.goToLineCommand "src/x.ts" 5 ∧
    (CodeReviewPanel.goToLineRun "ws" "src/x.ts" 5).openedPath =
      CodeReviewPanel.joinPath "ws" "src/x.ts" ∧
    (CodeReviewPanel.goToLineRun "ws" "src/x.ts" 5).cursorLine = 5 - 1 :=
  ⟨(claim_C7_routing "src/x.ts" 5 none "ws" "u").2.1,
    ((claim_C7_routing "src/x.ts" 5 none "ws" "u").2.2.1 (by norm_num)).1,
    ((claim_C7_routing "src/x.ts" 5 none "ws" "u").2.2.1 (by norm_num)).2⟩
